import Mathlib

/-!
# Verification of `driftpy`'s `BulkAccountLoader`

A shallow embedding of `src/driftpy/accounts/bulk_account_loader.py` into Lean.

Modelling conventions:
* Python byte strings become `List Nat` (`Buffer`).
* Python `dict` (insertion-ordered, in-place update of an existing key,
  append of a new key) becomes an association list `List (key × value)`
  operated on by `assocGet` / `assocInsert`.
* Callback functions are opaque: each is represented by a `Nat` label.
  A callback invocation `cb(buffer, slot)` is recorded as the triple
  `(label, buffer, slot)`.
* `b64decode` of the wire payload `account["data"][0]` is out of scope
  (wire serialization per the spec); an account entry carries its decoded
  byte content directly (`Account.data`).
* An uncaught Python exception is modelled by `Except.error`.
-/

set_option autoImplicit false

namespace DriftPy

/-- Raw account content: a byte sequence. -/
abbrev Buffer := List Nat

/-- Lookup in a Python-`dict`-as-association-list: first pair whose key
matches. -/
def assocGet {α : Type} [DecidableEq α] {β : Type} : List (α × β) → α → Option β
  | [], _ => none
  | (k, v) :: rest, key => if k = key then some v else assocGet rest key

/-- Python `d[key] = val`: overwrite in place if the key is present
(keeping its position), otherwise append at the end. -/
def assocInsert {α : Type} [DecidableEq α] {β : Type} : List (α × β) → α → β → List (α × β)
  | [], key, val => [(key, val)]
  | (k, v) :: rest, key, val =>
      if k = key then (k, val) :: rest else (k, v) :: assocInsert rest key val

/-- `AccountToLoad` from the source: a pubkey (its string form) and the
callback map `callback_id ↦ callback`. -/
structure AccountToLoad where
  pubkey : String
  callback : List (Nat × Nat)
deriving DecidableEq, Repr

/-- `BufferAndSlot` from the source. -/
structure BufferAndSlot where
  slot : Nat
  buffer : Option Buffer
deriving DecidableEq, Repr

/-- `GET_MULTIPLE_ACCOUNTS_CHUNK_SIZE = 99`. -/
def GET_MULTIPLE_ACCOUNTS_CHUNK_SIZE : Nat := 99

/-- One non-null account entry of an RPC `getMultipleAccounts` response.
`data` is the content after the batch-level base64 decode. -/
structure Account where
  data : Buffer
deriving DecidableEq, Repr

/-- `rpc_result.result` for one sub-batch: the shared context slot and the
per-address `value` list (`none` = the remote returned null for that
address). -/
structure RpcResult where
  slot : Nat
  value : List (Option Account)
deriving DecidableEq, Repr

/-- One parsed entry of the batched JSON-RPC response: either a result or a
`jsonrpcclient.Error` with its message. -/
inductive RpcResponse where
  | ok (result : RpcResult)
  | err (message : String)
deriving DecidableEq, Repr

/-- The whole mutable state of a `BulkAccountLoader` instance that the
claims touch.  `task` models whether `self.task` is set;
`tasks_created` counts how many times `asyncio.create_task` ran
(`_start_loading`). -/
structure BulkAccountLoader where
  callback_id : Nat
  accounts_to_load : List (String × AccountToLoad)
  buffer_and_slot_map : List (String × BufferAndSlot)
  task : Bool
  tasks_created : Nat
deriving DecidableEq, Repr

/-- The state right after `__init__`. -/
def initLoader : BulkAccountLoader :=
  { callback_id := 0, accounts_to_load := [], buffer_and_slot_map := [],
    task := false, tasks_created := 0 }

/-- `_start_loading`: spawns the background `load` task. -/
def start_loading (s : BulkAccountLoader) : BulkAccountLoader :=
  { s with task := true, tasks_created := s.tasks_created + 1 }

/-- `add_account(pubkey, callback)`.  Note the source reads
`self.callback_id` without ever incrementing it (it never calls
`get_callback_id`). -/
def add_account (s : BulkAccountLoader) (pubkey : String) (cb : Nat) :
    BulkAccountLoader × Nat :=
  let existing_size := s.accounts_to_load.length
  let callback_id := s.callback_id
  let accounts1 :=
    match assocGet s.accounts_to_load pubkey with
    | some existing =>
        assocInsert s.accounts_to_load pubkey
          ⟨existing.pubkey, assocInsert existing.callback callback_id cb⟩
    | none =>
        assocInsert s.accounts_to_load pubkey ⟨pubkey, [(callback_id, cb)]⟩
  let s1 := { s with accounts_to_load := accounts1 }
  let s2 := if existing_size = 0 then start_loading s1 else s1
  (s2, callback_id)

/-- `get_callback_id`: increments the counter and returns the new value.
(Defined in the source but never called by `add_account`.) -/
def get_callback_id (s : BulkAccountLoader) : BulkAccountLoader × Nat :=
  ({ s with callback_id := s.callback_id + 1 }, s.callback_id + 1)

/-- `unsubscribe`: cancel the task if one is set. -/
def unsubscribe (s : BulkAccountLoader) : BulkAccountLoader :=
  if s.task then { s with task := false } else s

/-- `chunks(array, size)`, Python
`[array[i : i + size] for i in range(0, len(array), size)]`.
(`size = 0` would raise `ValueError` in Python; it is mapped to `[]`,
the source only ever uses sizes 99 and 10.) -/
def chunks {α : Type} : List α → Nat → List (List α)
  | [], _ => []
  | _ :: _, 0 => []
  | a :: rest, n + 1 =>
      ((a :: rest).take (n + 1)) :: chunks ((a :: rest).drop (n + 1)) (n + 1)
termination_by l _ => l.length
decreasing_by
  simp only [List.length_drop, List.length_cons]
  omega

/-- The partition built by one iteration of `load`:
`chunks(chunks(list(accounts_to_load.values()), 99), 10)`. -/
def loadPartition (accounts : List AccountToLoad) : List (List (List AccountToLoad)) :=
  chunks (chunks accounts GET_MULTIPLE_ACCOUNTS_CHUNK_SIZE) 10

/-- The Python guard in `handle_callbacks` is `if bytes is not None:` where
`bytes` is the *builtin type* (the parameter is named `buffer`); the builtin
is never `None`, so the guard denotes the constant `true`. -/
def bytes_is_not_None : Bool := true

/-- `handle_callbacks`: iterate the account's callback map and invoke each
callback with `(buffer, slot)` under the (vacuous) guard. -/
def handle_callbacks (account_to_load : AccountToLoad) (buffer : Option Buffer)
    (slot : Nat) : List (Nat × Option Buffer × Nat) :=
  account_to_load.callback.filterMap fun cb =>
    if bytes_is_not_None then some (cb.2, buffer, slot) else none

/-- One call of `handle_callbacks` performed by `load_chunk` when a change
is detected; `calls` below recovers the individual callback invocations it
makes. -/
structure DispatchEvent where
  account_to_load : AccountToLoad
  buffer : Option Buffer
  slot : Nat
deriving DecidableEq, Repr

/-- The individual callback invocations a dispatch makes. -/
def DispatchEvent.calls (e : DispatchEvent) : List (Nat × Option Buffer × Nat) :=
  handle_callbacks e.account_to_load e.buffer e.slot

/-- The guard `old_buffer_and_slot is not None and slot <= old_buffer_and_slot.slot`. -/
def isStale (old : Option BufferAndSlot) (slot : Nat) : Bool :=
  match old with
  | some o => decide (slot ≤ o.slot)
  | none => false

/-- The guard `old_buffer_and_slot is None or new_buffer != old_buffer_and_slot.buffer`. -/
def shouldNotify (old : Option BufferAndSlot) (new_buffer : Option Buffer) : Bool :=
  match old with
  | none => true
  | some o => decide (new_buffer ≠ o.buffer)

/-- `rpc_result.result["value"].pop(0) if rpc_result.result["value"] else None`:
pop the front entry, or `None` when the list is exhausted. -/
def popAccount (value : List (Option Account)) : Option Account × List (Option Account) :=
  match value with
  | [] => (none, [])
  | a :: rest => (a, rest)

/-- The mutable state threaded through one sub-batch's inner loop of
`load_chunk`: the shared `buffer_and_slot_map` and the response's `value`
list (mutated by `pop(0)`). -/
structure ChunkState where
  bmap : List (String × BufferAndSlot)
  value : List (Option Account)
deriving DecidableEq, Repr

/-- The body of `for account_to_load in chunk_accounts` in `load_chunk`,
for one account.  Note that on the stale-skip `continue` the `value` list
is *not* popped. -/
def load_account_step (slot : Nat) (st : ChunkState) (account_to_load : AccountToLoad) :
    ChunkState × List DispatchEvent :=
  let old := assocGet st.bmap account_to_load.pubkey
  if isStale old slot then
    (st, [])
  else
    let account := (popAccount st.value).1
    let value' := (popAccount st.value).2
    let new_buffer := account.map Account.data
    if shouldNotify old new_buffer then
      (⟨assocInsert st.bmap account_to_load.pubkey ⟨slot, new_buffer⟩, value'⟩,
        [⟨account_to_load, new_buffer, slot⟩])
    else
      (⟨st.bmap, value'⟩, [])

/-- The full inner loop of `load_chunk` over one sub-batch's accounts. -/
def load_sub_batch (slot : Nat) (chunk_accounts : List AccountToLoad) (st : ChunkState) :
    ChunkState × List DispatchEvent :=
  match chunk_accounts with
  | [] => (st, [])
  | a :: rest =>
      let step := load_account_step slot st a
      let restRes := load_sub_batch slot rest step.1
      (restRes.1, step.2 ++ restRes.2)

/-- The loop `for rpc_result, chunk_accounts in zip(parsed_resp, chunk)` of
`load_chunk`: a `jsonrpcclient.Error` entry is printed and skipped
(`continue`); an ok entry runs the per-account inner loop, threading the
shared `buffer_and_slot_map`. -/
def load_chunk_results :
    List (RpcResponse × List AccountToLoad) → List (String × BufferAndSlot) →
      List (String × BufferAndSlot) × List DispatchEvent
  | [], bmap => (bmap, [])
  | (RpcResponse.err _, _) :: rest, bmap => load_chunk_results rest bmap
  | (RpcResponse.ok r, chunk_accounts) :: rest, bmap =>
      let batch := load_sub_batch r.slot chunk_accounts ⟨bmap, r.value⟩
      let restRes := load_chunk_results rest batch.1.bmap
      (restRes.1, batch.2 ++ restRes.2)

/-- `load_chunk(chunk)`.  `resp` models the outcome of the awaited HTTP
post plus JSON parse: `Except.error` is an exception raised by the
transport, which the source does not catch, so it propagates out of
`load_chunk` (and through `asyncio.gather` it would terminate the `load`
task).  The early `if len(chunk) == 0: return` precedes the post. -/
def load_chunk (chunk : List (List AccountToLoad))
    (resp : Except String (List RpcResponse))
    (bmap : List (String × BufferAndSlot)) :
    Except String (List (String × BufferAndSlot) × List DispatchEvent) :=
  if chunk.length = 0 then Except.ok (bmap, [])
  else
    match resp with
    | Except.error e => Except.error e
    | Except.ok parsed => Except.ok (load_chunk_results (parsed.zip chunk) bmap)

/-- One iteration of the `while True` body of `load`: run `load_chunk` for
every group of the partition (the source uses `asyncio.gather`, which
re-raises the first uncaught exception into `load`, ending the task; the
groups' reconciliations of the shared map are modelled sequentially). -/
def loadCycle :
    List (List (List AccountToLoad) × Except String (List RpcResponse)) →
      List (String × BufferAndSlot) →
      Except String (List (String × BufferAndSlot) × List DispatchEvent)
  | [], bmap => Except.ok (bmap, [])
  | (chunk, resp) :: rest, bmap =>
      match load_chunk chunk resp bmap with
      | Except.error e => Except.error e
      | Except.ok (bmap', evs) =>
          match loadCycle rest bmap' with
          | Except.error e => Except.error e
          | Except.ok (bmap'', evs') => Except.ok (bmap'', evs ++ evs')

/-- The polling loop of `load` specialised to a registry holding the single
watched account `atl`: each cycle one `getMultipleAccounts` observation
`(slot, value)` arrives and is reconciled by the inner loop of
`load_chunk`. -/
def runCycles (atl : AccountToLoad) :
    List (Nat × List (Option Account)) → List (String × BufferAndSlot) →
      List (String × BufferAndSlot) × List DispatchEvent
  | [], bmap => (bmap, [])
  | (slot, value) :: rest, bmap =>
      let batch := load_sub_batch slot [atl] ⟨bmap, value⟩
      let restRes := runCycles atl rest batch.1.bmap
      (restRes.1, batch.2 ++ restRes.2)

/-- The external operations a caller can perform on a loader. -/
inductive LoaderOp where
  | register (pubkey : String) (cb : Nat)
  | stop
deriving DecidableEq, Repr

/-- Apply one external operation. -/
def applyOp (s : BulkAccountLoader) : LoaderOp → BulkAccountLoader
  | LoaderOp.register pk cb => (add_account s pk cb).1
  | LoaderOp.stop => unsubscribe s

/-- Apply a sequence of external operations. -/
def runOps (s : BulkAccountLoader) : List LoaderOp → BulkAccountLoader
  | [] => s
  | op :: rest => runOps (applyOp s op) rest

/-! ## Helper lemmas -/

theorem assocGet_insert_self {α β : Type} [DecidableEq α]
    (m : List (α × β)) (k : α) (v : β) :
    assocGet (assocInsert m k v) k = some v := by
  induction m with
  | nil => simp [assocInsert, assocGet]
  | cons p rest ih =>
      obtain ⟨pk, pv⟩ := p
      by_cases h : pk = k
      · subst h
        simp [assocInsert, assocGet]
      · simp [assocInsert, assocGet, h, ih]

theorem assocGet_insert_ne {α β : Type} [DecidableEq α]
    (m : List (α × β)) (k k' : α) (v : β) (h : k' ≠ k) :
    assocGet (assocInsert m k v) k' = assocGet m k' := by
  induction m with
  | nil => simp [assocInsert, assocGet, Ne.symm h]
  | cons p rest ih =>
      obtain ⟨pk, pv⟩ := p
      by_cases hp : pk = k
      · subst hp
        simp [assocInsert, assocGet, Ne.symm h]
      · simp [assocInsert, assocGet, hp, ih]

theorem assocInsert_ne_nil {α β : Type} [DecidableEq α]
    (m : List (α × β)) (k : α) (v : β) :
    assocInsert m k v ≠ [] := by
  cases m with
  | nil => simp [assocInsert]
  | cons p rest =>
      by_cases h : p.1 = k <;> simp [assocInsert, h]

theorem isStale_false_iff (old : Option BufferAndSlot) (slot : Nat) :
    isStale old slot = false ↔ ∀ o, old = some o → o.slot < slot := by
  cases old with
  | none => simp [isStale]
  | some o =>
      simp only [isStale, decide_eq_false_iff_not, Nat.not_le, Option.some.injEq]
      constructor
      · intro hlt o' ho'
        exact ho' ▸ hlt
      · intro h'
        exact h' o rfl

theorem shouldNotify_true_iff (old : Option BufferAndSlot) (nb : Option Buffer) :
    shouldNotify old nb = true ↔
      old = none ∨ ∃ o, old = some o ∧ nb ≠ o.buffer := by
  cases old with
  | none => simp [shouldNotify]
  | some o => simp [shouldNotify]

theorem handle_callbacks_eq_map (atl : AccountToLoad) (buffer : Option Buffer)
    (slot : Nat) :
    handle_callbacks atl buffer slot = atl.callback.map fun cb => (cb.2, buffer, slot) := by
  have h : ∀ (l : List (Nat × Nat)),
      List.filterMap (fun cb => if bytes_is_not_None then some (cb.2, buffer, slot) else none) l
        = l.map fun cb => (cb.2, buffer, slot) := by
    intro l
    induction l with
    | nil => rfl
    | cons x xs ih =>
        simp [bytes_is_not_None] at ih
        simp [bytes_is_not_None, ih]
  exact h atl.callback

theorem load_account_step_stale (slot : Nat) (st : ChunkState) (atl : AccountToLoad)
    (h : isStale (assocGet st.bmap atl.pubkey) slot = true) :
    load_account_step slot st atl = (st, []) := by
  simp [load_account_step, h]

theorem load_account_step_notify (slot : Nat) (st : ChunkState) (atl : AccountToLoad)
    (h : isStale (assocGet st.bmap atl.pubkey) slot = false)
    (hn : shouldNotify (assocGet st.bmap atl.pubkey)
        (((popAccount st.value).1).map Account.data) = true) :
    load_account_step slot st atl =
      (⟨assocInsert st.bmap atl.pubkey ⟨slot, ((popAccount st.value).1).map Account.data⟩,
          (popAccount st.value).2⟩,
        [⟨atl, ((popAccount st.value).1).map Account.data, slot⟩]) := by
  simp [load_account_step, h, hn]

theorem load_account_step_skip (slot : Nat) (st : ChunkState) (atl : AccountToLoad)
    (h : isStale (assocGet st.bmap atl.pubkey) slot = false)
    (hn : shouldNotify (assocGet st.bmap atl.pubkey)
        (((popAccount st.value).1).map Account.data) = false) :
    load_account_step slot st atl = (⟨st.bmap, (popAccount st.value).2⟩, []) := by
  simp [load_account_step, h, hn]

/-- A step writes the map only at its own pubkey (if at all). -/
theorem load_account_step_bmap_cases (slot : Nat) (st : ChunkState) (atl : AccountToLoad) :
    (load_account_step slot st atl).1.bmap = st.bmap ∨
      ∃ e, (load_account_step slot st atl).1.bmap =
        assocInsert st.bmap atl.pubkey e := by
  by_cases h : isStale (assocGet st.bmap atl.pubkey) slot
  · rw [load_account_step_stale slot st atl h]
    exact Or.inl rfl
  · rw [Bool.not_eq_true] at h
    by_cases hn : shouldNotify (assocGet st.bmap atl.pubkey)
        (((popAccount st.value).1).map Account.data)
    · rw [load_account_step_notify slot st atl h hn]
      exact Or.inr ⟨_, rfl⟩
    · rw [Bool.not_eq_true] at hn
      rw [load_account_step_skip slot st atl h hn]
      exact Or.inl rfl

/-- Every event a step emits belongs to the stepped account. -/
theorem load_account_step_events (slot : Nat) (st : ChunkState) (atl : AccountToLoad) :
    ∀ e ∈ (load_account_step slot st atl).2, e.account_to_load = atl := by
  by_cases h : isStale (assocGet st.bmap atl.pubkey) slot
  · rw [load_account_step_stale slot st atl h]
    simp
  · rw [Bool.not_eq_true] at h
    by_cases hn : shouldNotify (assocGet st.bmap atl.pubkey)
        (((popAccount st.value).1).map Account.data)
    · rw [load_account_step_notify slot st atl h hn]
      simp
    · rw [Bool.not_eq_true] at hn
      rw [load_account_step_skip slot st atl h hn]
      simp

theorem chunks_nil {α : Type} (n : Nat) : chunks ([] : List α) n = [] := by
  simp [chunks]

theorem chunks_cons_succ {α : Type} (x : α) (rest : List α) (n : Nat) :
    chunks (x :: rest) (n + 1) =
      ((x :: rest).take (n + 1)) :: chunks ((x :: rest).drop (n + 1)) (n + 1) := by
  simp [chunks]

theorem chunks_flatten {α : Type} (a : List α) (size : Nat) :
    0 < size → (chunks a size).flatten = a := by
  induction a, size using chunks.induct with
  | case1 n =>
      intro _
      simp [chunks]
  | case2 x rest =>
      intro h
      exact absurd h (lt_irrefl 0)
  | case3 x rest n ih =>
      intro _
      rw [chunks_cons_succ]
      simp only [List.flatten_cons]
      rw [ih (Nat.succ_pos n)]
      exact List.take_append_drop _ _

/-- One arithmetic step of the ceiling-division recursion. -/
theorem ceil_div_succ_step (L s : Nat) (hL : 0 < L) (hs : 0 < s) :
    (L - s + s - 1) / s + 1 = (L + s - 1) / s := by
  have h1 : L + s - 1 = (L - 1) + s := by omega
  rw [h1, Nat.add_div_right _ hs]
  rcases Nat.le_total s L with h | h
  · have h2 : L - s + s - 1 = L - 1 := by omega
    rw [h2]
  · have h2 : L - s + s - 1 < s := by omega
    have h3 : L - 1 < s := by omega
    rw [Nat.div_eq_of_lt h2, Nat.div_eq_of_lt h3]

theorem chunks_length {α : Type} (a : List α) (size : Nat) :
    0 < size → (chunks a size).length = (a.length + size - 1) / size := by
  induction a, size using chunks.induct with
  | case1 n =>
      intro hs
      rw [chunks_nil]
      show (0 : Nat) = (0 + n - 1) / n
      rw [Nat.div_eq_of_lt (by omega)]
  | case2 x rest =>
      intro h
      exact absurd h (lt_irrefl 0)
  | case3 x rest n ih =>
      intro _
      rw [chunks_cons_succ]
      simp only [List.length_cons]
      rw [ih (Nat.succ_pos n)]
      simp only [List.length_drop, List.length_cons]
      exact ceil_div_succ_step (rest.length + 1) (n + 1) (Nat.succ_pos _) (Nat.succ_pos _)

theorem chunks_sizes {α : Type} (a : List α) (size : Nat) :
    ∀ c ∈ chunks a size, c.length ≤ size := by
  induction a, size using chunks.induct with
  | case1 n => simp [chunks]
  | case2 x rest => simp [chunks]
  | case3 x rest n ih =>
      rw [chunks_cons_succ]
      intro c hc
      rcases List.mem_cons.mp hc with h | h
      · subst h
        simp only [List.length_take]
        exact min_le_left _ _
      · exact ih c h

theorem load_chunk_ok_exists (chunk : List (List AccountToLoad))
    (parsed : List RpcResponse) (bmap : List (String × BufferAndSlot)) :
    ∃ r, load_chunk chunk (Except.ok parsed) bmap = Except.ok r := by
  unfold load_chunk
  split
  · exact ⟨_, rfl⟩
  · exact ⟨_, rfl⟩

theorem load_sub_batch_nil (slot : Nat) (st : ChunkState) :
    load_sub_batch slot [] st = (st, []) := rfl

theorem load_sub_batch_cons (slot : Nat) (a : AccountToLoad)
    (rest : List AccountToLoad) (st : ChunkState) :
    load_sub_batch slot (a :: rest) st =
      ((load_sub_batch slot rest (load_account_step slot st a).1).1,
        (load_account_step slot st a).2 ++
          (load_sub_batch slot rest (load_account_step slot st a).1).2) := rfl

/-! ## Claim theorems -/

/-- Claim C1 (code divergence): the claim says every registration assigns
the next id from a strictly increasing, never reused counter, so the second
of two successive registrations returns a strictly greater id.  In the code
`add_account` reads `self.callback_id` without ever advancing it
(`get_callback_id`, which does advance it, is never called), so two
successive registrations on fresh addresses both return id 0 and the
counter still holds 0. -/
theorem add_account_id_never_advances :
    (add_account initLoader "A" 1).2 = 0 ∧
      (add_account (add_account initLoader "A" 1).1 "B" 2).2 = 0 ∧
      (add_account (add_account initLoader "A" 1).1 "B" 2).1.callback_id = 0 :=
  ⟨rfl, rfl, rfl⟩

/-- Claim C2 (code divergence): the claim says two callbacks registered for
the same address are stored under distinct ids and a change invokes both.
In the code both registrations use id 0, so the second registration
overwrites the first in the callback map, and the dispatch for a change
invokes only the second callback (label 2), exactly once. -/
theorem same_address_second_callback_overwrites_first :
    (add_account (add_account initLoader "X" 1).1 "X" 2).1.accounts_to_load =
        [("X", ⟨"X", [(0, 2)]⟩)] ∧
      handle_callbacks ⟨"X", [(0, 2)]⟩ (some [7]) 3 = [(2, some [7], 3)] :=
  ⟨rfl, rfl⟩

/-- Claim C4 (code divergence): the claim says the i-th requested address
consumes the i-th response entry even when an earlier address was skipped
as stale.  In the code the stale-skip `continue` happens before `pop(0)`,
so with sub-batch [A, B], A cached at slot 10 and B uncached, a response at
slot 5 carrying entries with payloads [1] (for A) and [2] (for B) skips A
without consuming its entry, and B is dispatched with A's payload [1]
instead of its own entry [2], which stays unconsumed. -/
theorem stale_skip_misaligns_payloads :
    load_sub_batch 5 [⟨"A", [(0, 1)]⟩, ⟨"B", [(0, 2)]⟩]
        ⟨[("A", ⟨10, some [9]⟩)], [some ⟨[1]⟩, some ⟨[2]⟩]⟩ =
      (⟨[("A", ⟨10, some [9]⟩), ("B", ⟨5, some [1]⟩)], [some ⟨[2]⟩]⟩,
        [⟨⟨"B", [(0, 2)]⟩, some [1], 5⟩]) :=
  rfl

/-- Claim C6: partitioning a snapshot of N watched accounts produces
ceil(N/99) sub-batches each of size at most 99, grouped into
ceil(ceil(N/99)/10) groups each of at most 10 sub-batches; concatenating
the sub-batches gives back the snapshot (every snapshotted address appears
in exactly one sub-batch); for N = 150 this yields 2 sub-batches in 1
group. -/
theorem partition_shape (accounts : List AccountToLoad) :
    (chunks accounts GET_MULTIPLE_ACCOUNTS_CHUNK_SIZE).length =
        (accounts.length + 98) / 99 ∧
      (∀ c ∈ chunks accounts GET_MULTIPLE_ACCOUNTS_CHUNK_SIZE, c.length ≤ 99) ∧
      (loadPartition accounts).length =
        ((accounts.length + 98) / 99 + 9) / 10 ∧
      (∀ g ∈ loadPartition accounts, g.length ≤ 10) ∧
      (chunks accounts GET_MULTIPLE_ACCOUNTS_CHUNK_SIZE).flatten = accounts ∧
      (accounts.length = 150 →
        (chunks accounts GET_MULTIPLE_ACCOUNTS_CHUNK_SIZE).length = 2 ∧
          (loadPartition accounts).length = 1) := by
  have h99 : GET_MULTIPLE_ACCOUNTS_CHUNK_SIZE = 99 := rfl
  have hsubs : (chunks accounts GET_MULTIPLE_ACCOUNTS_CHUNK_SIZE).length =
      (accounts.length + 98) / 99 := by
    rw [h99, chunks_length accounts 99 (by omega)]
    congr 1
  have hgroups : (loadPartition accounts).length =
      ((accounts.length + 98) / 99 + 9) / 10 := by
    unfold loadPartition
    rw [chunks_length _ 10 (by omega), hsubs]
    congr 1
  refine ⟨hsubs, ?_, hgroups, ?_, ?_, ?_⟩
  · rw [h99]
    exact chunks_sizes accounts 99
  · exact chunks_sizes _ 10
  · rw [h99]
    exact chunks_flatten accounts 99 (by omega)
  · intro h150
    rw [hsubs, hgroups, h150]
    norm_num

/-- Witness for C6 at a concrete snapshot of 150 accounts. -/
theorem partition_shape_witness :
    (chunks (List.replicate 150 (⟨"A", [(0, 1)]⟩ : AccountToLoad))
        GET_MULTIPLE_ACCOUNTS_CHUNK_SIZE).length = 2 ∧
      (loadPartition (List.replicate 150 (⟨"A", [(0, 1)]⟩ : AccountToLoad))).length = 1 :=
  (partition_shape (List.replicate 150 ⟨"A", [(0, 1)]⟩)).2.2.2.2.2 (by simp)

/-- Claim C7 counterexample: a transport-level failure of a sub-batch
request is not absorbed by `load_chunk`; the exception propagates (and via
`asyncio.gather` it ends the `load` task), contradicting the claim that a
failed sub-batch request leaves the cycle and the polling loop running. -/
theorem transport_error_propagates :
    load_chunk [[⟨"A", [(0, 1)]⟩]] (Except.error "connection reset") [] =
        Except.error "connection reset" ∧
      loadCycle [([[⟨"A", [(0, 1)]⟩]], Except.error "connection reset")] [] =
        Except.error "connection reset" :=
  ⟨rfl, rfl⟩

/-- Claim C7 (amended): when the remote returns a per-batch error for a
sub-batch, the failure is only reported and the cycle continues — the
failed sub-batch contributes no cache writes and no callback dispatches,
and the remaining sub-batches are reconciled exactly as if it were absent;
moreover a cycle all of whose transport requests succeed always completes
normally, so the polling loop proceeds to its next iteration.  (A
transport-level request failure, by contrast, propagates and terminates
the loop — see the counterexample.) -/
theorem per_batch_error_isolated (msg : String) (accs : List AccountToLoad)
    (rest : List (RpcResponse × List AccountToLoad))
    (bmap : List (String × BufferAndSlot))
    (pairs : List (List (List AccountToLoad) × List RpcResponse)) :
    load_chunk_results ((RpcResponse.err msg, accs) :: rest) bmap =
        load_chunk_results rest bmap ∧
      ∃ r, loadCycle (pairs.map fun p => (p.1, Except.ok p.2)) bmap = Except.ok r := by
  constructor
  · rfl
  · induction pairs generalizing bmap with
    | nil => exact ⟨(bmap, []), rfl⟩
    | cons p ps ih =>
        obtain ⟨r, hr⟩ := load_chunk_ok_exists p.1 p.2 bmap
        obtain ⟨b1, evs⟩ := r
        obtain ⟨r', hr'⟩ := ih b1
        obtain ⟨b2, evs'⟩ := r'
        refine ⟨(b2, evs ++ evs'), ?_⟩
        simp only [List.map_cons, loadCycle, hr, hr']

/-- Claim C3: for every address that has a cached entry, if a fetched
sub-batch response carries a slot less than or equal to the cached slot,
then after the whole sub-batch is processed the cache entry for that
address is unchanged and no callback dispatch fires for that address. -/
theorem stale_response_keeps_cache (accounts : List AccountToLoad) (slot : Nat)
    (bmap : List (String × BufferAndSlot)) (value : List (Option Account))
    (pk : String) (o : BufferAndSlot)
    (hget : assocGet bmap pk = some o) (hstale : slot ≤ o.slot) :
    assocGet (load_sub_batch slot accounts ⟨bmap, value⟩).1.bmap pk = some o ∧
      ∀ e ∈ (load_sub_batch slot accounts ⟨bmap, value⟩).2,
        e.account_to_load.pubkey ≠ pk := by
  revert hget
  induction accounts generalizing bmap value with
  | nil =>
      intro hget
      rw [load_sub_batch_nil]
      exact ⟨hget, by simp⟩
  | cons a rest ih =>
      intro hget
      rw [load_sub_batch_cons]
      by_cases hpk : a.pubkey = pk
      · have hst : isStale (assocGet bmap a.pubkey) slot = true := by
          rw [hpk, hget]
          simp [isStale, hstale]
        have hstep : load_account_step slot ⟨bmap, value⟩ a = (⟨bmap, value⟩, []) :=
          load_account_step_stale slot ⟨bmap, value⟩ a hst
        rw [hstep]
        simp only [List.nil_append]
        exact ih bmap value hget
      · have hget' : assocGet (load_account_step slot ⟨bmap, value⟩ a).1.bmap pk = some o := by
          rcases load_account_step_bmap_cases slot ⟨bmap, value⟩ a with h | ⟨en, h⟩
          · rw [h]
            exact hget
          · rw [h, assocGet_insert_ne _ _ _ _ (fun heq => hpk heq.symm)]
            exact hget
        obtain ⟨h1, h2⟩ := ih (load_account_step slot ⟨bmap, value⟩ a).1.bmap
          (load_account_step slot ⟨bmap, value⟩ a).1.value hget'
        refine ⟨h1, ?_⟩
        intro e he
        rcases List.mem_append.mp he with hmem | hmem
        · rw [load_account_step_events slot ⟨bmap, value⟩ a e hmem]
          exact hpk
        · exact h2 e hmem

/-- Witness for C3 at a concrete cached entry and stale response. -/
theorem stale_response_keeps_cache_witness :
    assocGet [("X", (⟨10, some [1]⟩ : BufferAndSlot))] "X" = some ⟨10, some [1]⟩ ∧
      (5 : Nat) ≤ 10 ∧
      (assocGet (load_sub_batch 5 [⟨"X", [(0, 1)]⟩]
            ⟨[("X", ⟨10, some [1]⟩)], [some ⟨[2]⟩]⟩).1.bmap "X" = some ⟨10, some [1]⟩ ∧
        ∀ e ∈ (load_sub_batch 5 [⟨"X", [(0, 1)]⟩]
            ⟨[("X", ⟨10, some [1]⟩)], [some ⟨[2]⟩]⟩).2,
          e.account_to_load.pubkey ≠ "X") :=
  ⟨rfl, by omega,
    stale_response_keeps_cache [⟨"X", [(0, 1)]⟩] 5 [("X", ⟨10, some [1]⟩)]
      [some ⟨[2]⟩] "X" ⟨10, some [1]⟩ rfl (by decide)⟩

/-- Claim C5: for an observation that passed the staleness check, callbacks
fire if and only if the address has no cached entry or the fetched buffer
differs from the cached buffer (absent/present transitions included); when
they fire, every invocation carries the fetched (buffer, slot) pair and the
cache entry is overwritten with exactly that pair.  In particular a strictly
newer slot with identical content fires nothing, and a first-ever
observation fires and caches the fetched pair (see the witness). -/
theorem change_detection_characterisation
    (bmap : List (String × BufferAndSlot)) (value : List (Option Account))
    (atl : AccountToLoad) (slot : Nat)
    (hfresh : isStale (assocGet bmap atl.pubkey) slot = false)
    (hcb : atl.callback ≠ []) :
    ((((load_account_step slot ⟨bmap, value⟩ atl).2.map DispatchEvent.calls).flatten ≠ []) ↔
        (assocGet bmap atl.pubkey = none ∨
          ∃ o, assocGet bmap atl.pubkey = some o ∧
            ((popAccount value).1).map Account.data ≠ o.buffer)) ∧
      ((load_account_step slot ⟨bmap, value⟩ atl).2 ≠ [] →
        assocGet (load_account_step slot ⟨bmap, value⟩ atl).1.bmap atl.pubkey =
          some ⟨slot, ((popAccount value).1).map Account.data⟩) ∧
      (∀ e ∈ (load_account_step slot ⟨bmap, value⟩ atl).2,
        e.buffer = ((popAccount value).1).map Account.data ∧ e.slot = slot) ∧
      ∀ c ∈ ((load_account_step slot ⟨bmap, value⟩ atl).2.map DispatchEvent.calls).flatten,
        c.2.1 = ((popAccount value).1).map Account.data ∧ c.2.2 = slot := by
  by_cases hn : shouldNotify (assocGet bmap atl.pubkey)
      (((popAccount value).1).map Account.data)
  · have hstep := load_account_step_notify slot ⟨bmap, value⟩ atl hfresh hn
    rw [hstep]
    refine ⟨?_, ?_, ?_, ?_⟩
    · constructor
      · intro _
        exact (shouldNotify_true_iff _ _).mp hn
      · intro _
        simp only [List.map_cons, List.map_nil, List.flatten_cons, List.flatten_nil,
          List.append_nil, DispatchEvent.calls]
        rw [handle_callbacks_eq_map]
        simp [hcb]
    · intro _
      exact assocGet_insert_self bmap atl.pubkey _
    · intro e he
      have heq := List.mem_singleton.mp he
      subst heq
      exact ⟨rfl, rfl⟩
    · intro c hc
      simp only [List.map_cons, List.map_nil, List.flatten_cons, List.flatten_nil,
        List.append_nil, DispatchEvent.calls] at hc
      rw [handle_callbacks_eq_map] at hc
      obtain ⟨cb, hcb', rfl⟩ := List.mem_map.mp hc
      exact ⟨rfl, rfl⟩
  · rw [Bool.not_eq_true] at hn
    have hstep := load_account_step_skip slot ⟨bmap, value⟩ atl hfresh hn
    rw [hstep]
    refine ⟨?_, ?_, ?_, ?_⟩
    · constructor
      · intro h
        exact absurd rfl h
      · intro h
        have hsn : shouldNotify (assocGet bmap atl.pubkey)
            (((popAccount value).1).map Account.data) = true :=
          (shouldNotify_true_iff _ _).mpr h
        rw [hn] at hsn
        exact absurd hsn Bool.false_ne_true
    · intro h
      exact absurd rfl h
    · intro e he
      exact absurd he (List.not_mem_nil e)
    · intro c hc
      simp at hc

/-- Witness for C5: the first-ever observation of address X, fetched at
slot 5 with buffer [97, 98, 99] (b"abc"): the callback fires with exactly
that pair and the cache then holds (5, [97, 98, 99]). -/
theorem change_detection_characterisation_witness :
    isStale (assocGet [] "X") 5 = false ∧
      ([(0, 1)] : List (Nat × Nat)) ≠ [] ∧
      (assocGet (load_account_step 5 ⟨[], [some ⟨[97, 98, 99]⟩]⟩
          ⟨"X", [(0, 1)]⟩).1.bmap "X" = some ⟨5, some [97, 98, 99]⟩) ∧
      ((load_account_step 5 ⟨[], [some ⟨[97, 98, 99]⟩]⟩ ⟨"X", [(0, 1)]⟩).2.map
          DispatchEvent.calls).flatten = [(1, some [97, 98, 99], 5)] := by
  refine ⟨rfl, by simp, ?_, rfl⟩
  exact (change_detection_characterisation [] [some ⟨[97, 98, 99]⟩]
    ⟨"X", [(0, 1)]⟩ 5 rfl (by simp)).2.1 (by decide)

theorem load_sub_batch_single (slot : Nat) (st : ChunkState) (atl : AccountToLoad) :
    load_sub_batch slot [atl] st = load_account_step slot st atl := by
  rw [load_sub_batch_cons, load_sub_batch_nil]
  simp

theorem runCycles_nil (atl : AccountToLoad) (bmap : List (String × BufferAndSlot)) :
    runCycles atl [] bmap = (bmap, []) := rfl

theorem runCycles_cons (atl : AccountToLoad) (slot : Nat)
    (value : List (Option Account)) (rest : List (Nat × List (Option Account)))
    (bmap : List (String × BufferAndSlot)) :
    runCycles atl ((slot, value) :: rest) bmap =
      ((runCycles atl rest (load_sub_batch slot [atl] ⟨bmap, value⟩).1.bmap).1,
        (load_sub_batch slot [atl] ⟨bmap, value⟩).2 ++
          (runCycles atl rest (load_sub_batch slot [atl] ⟨bmap, value⟩).1.bmap).2) := rfl

/-- One reconciliation step never lowers the cached slot of its address. -/
theorem load_account_step_slot_mono (st : ChunkState) (atl : AccountToLoad)
    (slot : Nat) (o o' : BufferAndSlot)
    (hget : assocGet st.bmap atl.pubkey = some o)
    (hget' : assocGet (load_account_step slot st atl).1.bmap atl.pubkey = some o') :
    o.slot ≤ o'.slot := by
  by_cases hst : isStale (assocGet st.bmap atl.pubkey) slot
  · rw [load_account_step_stale slot st atl hst, hget] at hget'
    cases hget'
    exact le_refl _
  · rw [Bool.not_eq_true] at hst
    have hlt : o.slot < slot := (isStale_false_iff _ _).mp hst o hget
    by_cases hn : shouldNotify (assocGet st.bmap atl.pubkey)
        (((popAccount st.value).1).map Account.data)
    · rw [load_account_step_notify slot st atl hst hn] at hget'
      simp only [assocGet_insert_self] at hget'
      cases hget'
      exact le_of_lt hlt
    · rw [Bool.not_eq_true] at hn
      rw [load_account_step_skip slot st atl hst hn] at hget'
      simp only at hget'
      rw [hget] at hget'
      cases hget'
      exact le_refl _

/-- If a reconciliation step dispatches, the dispatch slot is `slot`, it
exceeds any previously cached slot of the address, and the address's cache
entry afterwards holds `slot`. -/
theorem load_account_step_event_slot (st : ChunkState) (atl : AccountToLoad)
    (slot : Nat) (e : DispatchEvent)
    (he : e ∈ (load_account_step slot st atl).2) :
    e.slot = slot ∧
      (∀ o, assocGet st.bmap atl.pubkey = some o → o.slot < slot) ∧
      assocGet (load_account_step slot st atl).1.bmap atl.pubkey =
        some ⟨slot, ((popAccount st.value).1).map Account.data⟩ := by
  by_cases hst : isStale (assocGet st.bmap atl.pubkey) slot
  · rw [load_account_step_stale slot st atl hst] at he
    exact absurd he (List.not_mem_nil e)
  · rw [Bool.not_eq_true] at hst
    by_cases hn : shouldNotify (assocGet st.bmap atl.pubkey)
        (((popAccount st.value).1).map Account.data)
    · have hstep := load_account_step_notify slot st atl hst hn
      rw [hstep] at he ⊢
      have heq := List.mem_singleton.mp he
      subst heq
      exact ⟨rfl, (isStale_false_iff _ _).mp hst, assocGet_insert_self _ _ _⟩
    · rw [Bool.not_eq_true] at hn
      rw [load_account_step_skip slot st atl hst hn] at he
      exact absurd he (List.not_mem_nil e)

/-- If a reconciliation step dispatches nothing, the address's cache entry
is unchanged. -/
theorem load_account_step_no_event_bmap (st : ChunkState) (atl : AccountToLoad)
    (slot : Nat) (hno : (load_account_step slot st atl).2 = []) :
    (load_account_step slot st atl).1.bmap = st.bmap := by
  by_cases hst : isStale (assocGet st.bmap atl.pubkey) slot
  · rw [load_account_step_stale slot st atl hst]
  · rw [Bool.not_eq_true] at hst
    by_cases hn : shouldNotify (assocGet st.bmap atl.pubkey)
        (((popAccount st.value).1).map Account.data)
    · rw [load_account_step_notify slot st atl hst hn] at hno
      cases hno
    · rw [Bool.not_eq_true] at hn
      rw [load_account_step_skip slot st atl hst hn]

/-- Dispatch slots along a single-address polling trace form a strictly
increasing chain, and every dispatched slot exceeds any slot cached for the
address before the trace began. -/
theorem runCycles_chain (atl : AccountToLoad) :
    ∀ (obs : List (Nat × List (Option Account)))
      (bmap : List (String × BufferAndSlot)),
      List.Chain' (fun e1 e2 => e1.slot < e2.slot) (runCycles atl obs bmap).2 ∧
        ∀ e ∈ (runCycles atl obs bmap).2,
          ∀ o, assocGet bmap atl.pubkey = some o → o.slot < e.slot := by
  intro obs
  induction obs with
  | nil =>
      intro bmap
      rw [runCycles_nil]
      exact ⟨List.chain'_nil, by simp⟩
  | cons p rest ih =>
      intro bmap
      obtain ⟨slot, value⟩ := p
      rw [runCycles_cons, load_sub_batch_single]
      cases hevs : (load_account_step slot ⟨bmap, value⟩ atl).2 with
      | nil =>
          have hbm := load_account_step_no_event_bmap ⟨bmap, value⟩ atl slot hevs
          simp only [hbm, List.nil_append]
          exact ih bmap
      | cons e tail =>
          have hmem : e ∈ (load_account_step slot ⟨bmap, value⟩ atl).2 := by
            rw [hevs]
            exact List.mem_cons_self e tail
          obtain ⟨heslot, hold, hnew⟩ :=
            load_account_step_event_slot ⟨bmap, value⟩ atl slot e hmem
          have htail : tail = [] := by
            by_cases hst : isStale (assocGet bmap atl.pubkey) slot
            · have := load_account_step_stale slot ⟨bmap, value⟩ atl hst
              rw [this] at hevs
              cases hevs
            · rw [Bool.not_eq_true] at hst
              by_cases hn : shouldNotify (assocGet bmap atl.pubkey)
                  (((popAccount value).1).map Account.data)
              · have := load_account_step_notify slot ⟨bmap, value⟩ atl hst hn
                rw [this] at hevs
                cases hevs
                rfl
              · rw [Bool.not_eq_true] at hn
                have := load_account_step_skip slot ⟨bmap, value⟩ atl hst hn
                rw [this] at hevs
                cases hevs
          subst htail
          obtain ⟨ihchain, ihbound⟩ :=
            ih (load_account_step slot ⟨bmap, value⟩ atl).1.bmap
          have hlater : ∀ e' ∈ (runCycles atl rest
              (load_account_step slot ⟨bmap, value⟩ atl).1.bmap).2, e.slot < e'.slot := by
            intro e' he'
            have := ihbound e' he' ⟨slot, ((popAccount value).1).map Account.data⟩ hnew
            simpa [heslot] using this
          constructor
          · show List.Chain' (fun e1 e2 => e1.slot < e2.slot)
              (e :: (runCycles atl rest
                (load_account_step slot ⟨bmap, value⟩ atl).1.bmap).2)
            rw [List.chain'_cons']
            refine ⟨?_, ihchain⟩
            intro b hb
            exact hlater b (List.mem_of_mem_head? hb)
          · intro e' he' o hgeto
            have he2 : e' ∈ e :: (runCycles atl rest
                (load_account_step slot ⟨bmap, value⟩ atl).1.bmap).2 := he'
            rcases List.mem_cons.mp he2 with rfl | hmem'
            · rw [heslot]
              exact hold o hgeto
            · calc o.slot < e.slot := by rw [heslot]; exact hold o hgeto
                _ < e'.slot := hlater e' hmem'

/-- Claim C8: for every address, the cached slot never decreases across
successive writes of the version cache, and the dispatches delivered for
that address along a polling trace carry strictly increasing slots (a
callback never observes a version older than one already delivered). -/
theorem callback_versions_strictly_increase (atl : AccountToLoad)
    (obs : List (Nat × List (Option Account))) :
    (∀ (st : ChunkState) (slot : Nat) (o o' : BufferAndSlot),
        assocGet st.bmap atl.pubkey = some o →
        assocGet (load_account_step slot st atl).1.bmap atl.pubkey = some o' →
        o.slot ≤ o'.slot) ∧
      List.Chain' (fun e1 e2 => e1.slot < e2.slot) (runCycles atl obs []).2 :=
  ⟨fun st slot o o' hget hget' =>
      load_account_step_slot_mono st atl slot o o' hget hget',
    (runCycles_chain atl obs []).1⟩

/-- Witness for C8: a concrete step from a cache at slot 10 to slot 12, and
a concrete two-cycle trace with dispatches at slots 1 and 2. -/
theorem callback_versions_strictly_increase_witness :
    (10 : Nat) ≤ 12 ∧
      List.Chain' (fun e1 e2 => e1.slot < e2.slot)
        (runCycles ⟨"X", [(0, 1)]⟩ [(1, [some ⟨[1]⟩]), (2, [some ⟨[2]⟩])] []).2 :=
  ⟨(callback_versions_strictly_increase ⟨"X", [(0, 1)]⟩ []).1
      ⟨[("X", ⟨10, some [1]⟩)], [some ⟨[2]⟩]⟩ 12 ⟨10, some [1]⟩ ⟨12, some [2]⟩ rfl rfl,
    (callback_versions_strictly_increase ⟨"X", [(0, 1)]⟩
        [(1, [some ⟨[1]⟩]), (2, [some ⟨[2]⟩])]).2⟩

/-- Claim C9: whenever a change is dispatched, `handle_callbacks` invokes
every registered callback of the address with the new (buffer, slot) pair,
also when the new buffer is absent: the guard `if bytes is not None`
compares the builtin type `bytes` (not the buffer) with `None`, is always
true, and never suppresses an invocation. -/
theorem dispatch_invokes_every_callback (atl : AccountToLoad)
    (buffer : Option Buffer) (slot : Nat) :
    handle_callbacks atl buffer slot =
        (atl.callback.map fun cb => (cb.2, buffer, slot)) ∧
      (handle_callbacks atl buffer slot).length = atl.callback.length ∧
      handle_callbacks atl none slot =
        (atl.callback.map fun cb => (cb.2, none, slot)) := by
  refine ⟨handle_callbacks_eq_map atl buffer slot, ?_,
    handle_callbacks_eq_map atl none slot⟩
  rw [handle_callbacks_eq_map]
  exact List.length_map _ _

/-- `add_account` increments the spawn count exactly when the registry was
empty immediately before the call, and leaves it unchanged otherwise. -/
theorem add_account_tasks_created (s : BulkAccountLoader) (pk : String) (cb : Nat) :
    (add_account s pk cb).1.tasks_created =
      if s.accounts_to_load = [] then s.tasks_created + 1 else s.tasks_created := by
  by_cases h : s.accounts_to_load = []
  · cases hget : assocGet s.accounts_to_load pk with
    | none => simp [add_account, hget, h, start_loading]
    | some existing => simp [add_account, hget, h, start_loading]
  · have hlen : s.accounts_to_load.length ≠ 0 := by
      simpa [List.length_eq_zero] using h
    cases hget : assocGet s.accounts_to_load pk with
    | none => simp [add_account, hget, h, hlen, start_loading]
    | some existing => simp [add_account, hget, h, hlen, start_loading]

/-- After `add_account` the registry is never empty (addresses are never
removed, and the call itself inserts one). -/
theorem add_account_registry_ne_nil (s : BulkAccountLoader) (pk : String) (cb : Nat) :
    (add_account s pk cb).1.accounts_to_load ≠ [] := by
  by_cases h : s.accounts_to_load.length = 0
  · cases hget : assocGet s.accounts_to_load pk with
    | none => simp [add_account, hget, h, start_loading, assocInsert_ne_nil]
    | some existing => simp [add_account, hget, h, start_loading, assocInsert_ne_nil]
  · cases hget : assocGet s.accounts_to_load pk with
    | none => simp [add_account, hget, h, start_loading, assocInsert_ne_nil]
    | some existing => simp [add_account, hget, h, start_loading, assocInsert_ne_nil]

/-- `unsubscribe` touches only the task handle. -/
theorem unsubscribe_preserves (s : BulkAccountLoader) :
    (unsubscribe s).tasks_created = s.tasks_created ∧
      (unsubscribe s).accounts_to_load = s.accounts_to_load := by
  unfold unsubscribe
  by_cases h : s.task <;> simp [h]

/-- Claim C10: a registration spawns the background polling task if and
only if the registry was empty immediately before the call, and since
addresses are never removed, over any sequence of registrations and stops
starting from the initial state at most one task is ever created. -/
theorem task_spawned_iff_registry_empty :
    (∀ (s : BulkAccountLoader) (pk : String) (cb : Nat),
        (add_account s pk cb).1.tasks_created = s.tasks_created + 1 ↔
          s.accounts_to_load = []) ∧
      (∀ (s : BulkAccountLoader) (pk : String) (cb : Nat),
        s.accounts_to_load ≠ [] →
          (add_account s pk cb).1.tasks_created = s.tasks_created) ∧
      ∀ (ops : List LoaderOp), (runOps initLoader ops).tasks_created ≤ 1 := by
  have hinv : ∀ (ops : List LoaderOp) (s : BulkAccountLoader),
      (s.accounts_to_load = [] → s.tasks_created = 0) → s.tasks_created ≤ 1 →
        (runOps s ops).tasks_created ≤ 1 := by
    intro ops
    induction ops with
    | nil =>
        intro s _ h2
        exact h2
    | cons op rest ih =>
        intro s h1 h2
        cases op with
        | register pk cb =>
            show (runOps (add_account s pk cb).1 rest).tasks_created ≤ 1
            apply ih
            · intro hempty
              exact absurd hempty (add_account_registry_ne_nil s pk cb)
            · rw [add_account_tasks_created]
              by_cases h : s.accounts_to_load = []
              · simp only [h, if_pos]
                rw [h1 h]
              · simp only [h, if_neg]
                exact h2
        | stop =>
            show (runOps (unsubscribe s) rest).tasks_created ≤ 1
            apply ih
            · intro hempty
              rw [(unsubscribe_preserves s).2] at hempty
              rw [(unsubscribe_preserves s).1]
              exact h1 hempty
            · rw [(unsubscribe_preserves s).1]
              exact h2
  refine ⟨?_, ?_, ?_⟩
  · intro s pk cb
    rw [add_account_tasks_created]
    by_cases h : s.accounts_to_load = []
    · simp [h]
    · simp [h]
  · intro s pk cb h
    rw [add_account_tasks_created]
    simp [h]
  · intro ops
    exact hinv ops initLoader (fun _ => rfl) (Nat.zero_le 1)

/-- Witness for C10: the first registration spawns the task, the second
does not, and a concrete register-register-stop run creates at most one
task. -/
theorem task_spawned_iff_registry_empty_witness :
    (add_account initLoader "A" 1).1.tasks_created = initLoader.tasks_created + 1 ∧
      (add_account (add_account initLoader "A" 1).1 "B" 2).1.tasks_created =
        (add_account initLoader "A" 1).1.tasks_created ∧
      (runOps initLoader [LoaderOp.register "A" 1, LoaderOp.register "B" 2,
        LoaderOp.stop]).tasks_created ≤ 1 :=
  ⟨(task_spawned_iff_registry_empty.1 initLoader "A" 1).mpr rfl,
    task_spawned_iff_registry_empty.2.1 (add_account initLoader "A" 1).1 "B" 2 (by decide),
    task_spawned_iff_registry_empty.2.2
      [LoaderOp.register "A" 1, LoaderOp.register "B" 2, LoaderOp.stop]⟩

end DriftPy
